import Mathlib

/-!
Shallow embedding of the PDF-Editor core (src/src/services/PDFService.ts,
src/src/hooks/useFileValidation.ts, and the compression tool's result policy in
src/unnamed/part_001).  Documents are modelled as lists of pages; the pdf-lib
codec primitives (load, save, copyPages, rasterization), which are an external
dependency of the repository, are modelled from the spec (section 4.1 and 6):
`copyPages` fails exactly when an index is out of `[0, pageCount)` and allows
duplicates; `save`/`load`/`renderPage` are abstract parameters gathered in a
`Codec` record.  Everything else is translated from the TypeScript source.
-/

namespace PDFEditor

inductive CompressionLevel
  | low
  | medium
  | high
  | extreme
deriving DecidableEq

inductive PageContent
  | original (id : Nat)
  | image (bytes : List Nat)
deriving DecidableEq

/-- One page of a document: width and height in points plus an opaque payload. -/
structure Page where
  width : ℚ
  height : ℚ
  content : PageContent
deriving DecidableEq

instance : Inhabited Page := ⟨Page.mk 0 0 (PageContent.original 0)⟩

/-- Document-level metadata (title, author, subject, keywords, producer, creator). -/
structure Metadata where
  title : String
  author : String
  subject : String
  keywords : List String
  producer : String
  creator : String
deriving DecidableEq

/-- Modelled from the spec: the metadata a freshly created empty document carries
(section 4.1, `createEmpty`); the concrete field values are codec-internal. -/
def defaultMeta : Metadata := Metadata.mk "" "" "" [] "pdf-lib" "pdf-lib"

/-- The metadata written by the compression passes in `PDFService.ts`
(`setTitle('')` ... `setProducer('PDF Compressor')`, `setCreator('PDF Compressor')`). -/
def strippedMeta : Metadata := Metadata.mk "" "" "" [] "PDF Compressor" "PDF Compressor"

/-- An in-memory PDF document: an ordered list of pages, metadata and an
encryption flag (pdf-lib's `PDFDocument`). -/
structure Document where
  pages : List Page
  meta : Metadata
  isEncrypted : Bool
deriving DecidableEq

def Document.pageCount (d : Document) : Nat := d.pages.length

/-- Modelled from the spec (section 4.1): fetching the page at a possibly
negative index; `none` exactly when the index is outside `[0, pageCount)`. -/
def pageAt (d : Document) (i : Int) : Option Page :=
  if 0 ≤ i then d.pages[i.toNat]? else none

/-- Modelled from the spec (section 4.1, `copyPages`): copies the pages at the
given indices in order, duplicates allowed; fails iff some index is out of
range. -/
def copyPages (d : Document) : List Int → Option (List Page)
  | [] => some []
  | i :: rest => do
      let p ← pageAt d i
      let ps ← copyPages d rest
      pure (p :: ps)

/-- pdf-lib's `getPageIndices()`: the list `[0, ..., pageCount-1]`. -/
def getPageIndices (d : Document) : List Int :=
  (List.range d.pageCount).map (Nat.cast : Nat → Int)

/-- A PDF file as uploaded: name, reported byte size, raw data. -/
structure PDFFile where
  name : String
  size : Nat
  data : List Nat
deriving DecidableEq

/-- Modelled from the spec (sections 4.1 and 6): the external codec and
rasterization primitives the service calls into.  `save` serializes a document
to bytes (the `useObjectStreams` option does not affect any claim and is
abstracted away), `loadBytes` parses bytes, `renderPage` renders one page at a
scale and re-encodes it at a quality, failing on render or encode errors. -/
structure Codec where
  save : Document → List Nat
  loadBytes : List Nat → Option Document
  renderPage : Page → ℚ → ℚ → Option (List Nat)

/-! Page-set operations (`PDFService.ts`). -/

/-- `mergePDFs` loop body: all pages of each document, in order. -/
def mergePages : List Document → Option (List Page)
  | [] => some []
  | d :: rest => do
      let ps ← copyPages d (getPageIndices d)
      let qs ← mergePages rest
      pure (ps ++ qs)

/-- `mergePDFs` (PDFService.ts:14): concatenate all pages of the given documents. -/
def mergePDFs (docs : List Document) : Option Document :=
  (mergePages docs).map fun ps => Document.mk ps defaultMeta false

/-- The indices kept by `removePages`: every `i` in `0..pageCount-1` with
`i ∉ pagesToRemove` (PDFService.ts:35-40). -/
def keptIndices (pc : Nat) (pagesToRemove : List Int) : List Int :=
  ((List.range pc).map (Nat.cast : Nat → Int)).filter fun i => decide (i ∉ pagesToRemove)

/-- `removePages` (PDFService.ts:28): keep the complement of the given index list. -/
def removePages (d : Document) (pagesToRemove : List Int) : Option Document :=
  (copyPages d (keptIndices d.pageCount pagesToRemove)).map fun ps =>
    Document.mk ps defaultMeta false

/-- `extractPages` (PDFService.ts:45): copy exactly the given indices in order. -/
def extractPages (d : Document) (pagesToExtract : List Int) : Option Document :=
  (copyPages d pagesToExtract).map fun ps => Document.mk ps defaultMeta false

/-- `organizePDF` (PDFService.ts:59): copy pages in the order given by `newOrder`;
the source performs no validation of its own. -/
def organizePDF (d : Document) (newOrder : List Int) : Option Document :=
  (copyPages d newOrder).map fun ps => Document.mk ps defaultMeta false

/-! `splitPDF` (PDFService.ts:436). -/

/-- JavaScript `Set` insertion: keep an element only if it has not been seen. -/
def jsDedupAux (seen : List Int) : List Int → List Int
  | [] => []
  | x :: xs => if x ∈ seen then jsDedupAux seen xs else x :: jsDedupAux (x :: seen) xs

/-- JavaScript `[...new Set(xs)]`: first-occurrence de-duplication. -/
def jsDedup (l : List Int) : List Int := jsDedupAux [] l

/-- PDFService.ts:441-443: de-duplicate, keep only points `p` with
`1 ≤ p < pageCount`, sort ascending. -/
def sanitizeSplits (pc : Nat) (splitAfterPages : List Int) : List Int :=
  List.insertionSort (· ≤ ·)
    ((jsDedup splitAfterPages).filter fun p => decide (1 ≤ p) && decide (p < (pc : Int)))

/-- PDFService.ts:446-457: the loop building `ranges` from the valid split
points, starting at `startPage`; after the loop a final range is added only
when `startPage < pageCount - 1`. -/
def buildRanges (pc : Int) : List Int → Int → List (Int × Int)
  | [], startPage => if startPage < pc - 1 then [(startPage, pc - 1)] else []
  | p :: rest, startPage => (startPage, p) :: buildRanges pc rest p

/-- PDFService.ts:465-468: `Array.from({length: end - start + 1}, (_, i) => start + i)`. -/
def pageRange (s e : Int) : List Int :=
  (List.range (e - s + 1).toNat).map (fun i : Nat => s + (i : Int))

/-- PDFService.ts:463-478: one output document per range, in order. -/
def splitParts (d : Document) : List (Int × Int) → Option (List Document)
  | [] => some []
  | (s, e) :: rest => do
      let ps ← copyPages d (pageRange s e)
      let ds ← splitParts d rest
      pure (Document.mk ps defaultMeta false :: ds)

/-- `splitPDF` (PDFService.ts:436-479), with the per-part download abstracted to
returning the list of output documents in part order. -/
def splitPDF (d : Document) (splitAfterPages : List Int) : Option (List Document) :=
  splitParts d
    (buildRanges (d.pageCount : Int) (sanitizeSplits d.pageCount splitAfterPages) 0)

/-! Compression pipeline (`PDFService.ts`). -/

/-- First-pass structural scale factor (PDFService.ts:252-261). -/
def structScale : CompressionLevel → ℚ
  | CompressionLevel.extreme => 7/10
  | CompressionLevel.high => 8/10
  | _ => 9/10

/-- Second-pass scale factor (PDFService.ts:318-323). -/
def secondPassScale : CompressionLevel → ℚ
  | CompressionLevel.extreme => 6/10
  | _ => 7/10

/-- `applyCompression` scale factor (PDFService.ts:382-388): only `high` and
`extreme` scale at all. -/
def applyCompressionScale : CompressionLevel → ℚ
  | CompressionLevel.extreme => 9/10
  | CompressionLevel.high => 95/100
  | _ => 1

/-- Canvas-strategy JPEG quality (PDFService.ts:133-150). -/
def canvasQuality : CompressionLevel → ℚ
  | CompressionLevel.low => 7/10
  | CompressionLevel.medium => 5/10
  | CompressionLevel.high => 3/10
  | CompressionLevel.extreme => 15/100

/-- Canvas-strategy viewport scale (PDFService.ts:133-150). -/
def canvasScale : CompressionLevel → ℚ
  | CompressionLevel.low => 1
  | CompressionLevel.medium => 9/10
  | CompressionLevel.high => 8/10
  | CompressionLevel.extreme => 7/10

/-- `page.setWidth(width * f); page.setHeight(height * f)`. -/
def scalePage (f : ℚ) (p : Page) : Page := Page.mk (p.width * f) (p.height * f) p.content

/-- The document built by the first structural pass (PDFService.ts:236-278):
all pages copied, scaled by the per-level factor, metadata stripped. -/
def structTransform (pdf : Document) (lvl : CompressionLevel) : Option Document :=
  (copyPages pdf (getPageIndices pdf)).map fun ps =>
    Document.mk (ps.map (scalePage (structScale lvl))) strippedMeta false

/-- The document the first structural pass produces when page copying succeeds. -/
def structDoc (pdf : Document) (lvl : CompressionLevel) : Document :=
  Document.mk (pdf.pages.map (scalePage (structScale lvl))) strippedMeta false

/-- `secondPassCompression` (PDFService.ts:300-351): reload the first-pass
bytes, rescale more aggressively, strip metadata, re-serialize; any error is
caught and the input bytes are returned unchanged. -/
def secondPassCompression (c : Codec) (pdfData : List Nat) (lvl : CompressionLevel) :
    List Nat :=
  match (c.loadBytes pdfData).bind fun pdf =>
      (copyPages pdf (getPageIndices pdf)).map fun ps =>
        Document.mk (ps.map (scalePage (secondPassScale lvl))) strippedMeta false with
  | none => pdfData
  | some newPdf => c.save newPdf

/-- `applyCompression` (PDFService.ts:361-413) before serialization: copy all
pages, scale only for `high`/`extreme`, strip metadata only for `high`/`extreme`. -/
def applyCompressionDoc (pdf : Document) (lvl : CompressionLevel) : Option Document :=
  (copyPages pdf (getPageIndices pdf)).map fun ps =>
    Document.mk
      (ps.map fun p =>
        if lvl = CompressionLevel.high ∨ lvl = CompressionLevel.extreme then
          scalePage (applyCompressionScale lvl) p
        else p)
      (if lvl = CompressionLevel.high ∨ lvl = CompressionLevel.extreme then strippedMeta
       else defaultMeta)
      false

/-- `applyCompression` (PDFService.ts:361-413): the serialized direct-copy result. -/
def applyCompression (c : Codec) (pdf : Document) (lvl : CompressionLevel) :
    Option (List Nat) :=
  (applyCompressionDoc pdf lvl).map c.save

/-- `clientSideCompression` (PDFService.ts:353-359): load then `applyCompression`. -/
def clientSideCompression (c : Codec) (file : PDFFile) (lvl : CompressionLevel) :
    Option (List Nat) :=
  (c.loadBytes file.data).bind fun pdf => applyCompression c pdf lvl

/-- `advancedCompression` (PDFService.ts:224-298): first structural pass, the
20 percent threshold check, escalation to the second pass, and the catch-all
fall back to `clientSideCompression`. -/
def advancedCompression (c : Codec) (file : PDFFile) (lvl : CompressionLevel) :
    Option (List Nat) :=
  match (c.loadBytes file.data).bind fun pdf => structTransform pdf lvl with
  | none => clientSideCompression c file lvl
  | some newPdf =>
      let firstPassData := c.save newPdf
      if (firstPassData.length : ℚ) < (file.size : ℚ) * (8/10) then some firstPassData
      else some (secondPassCompression c firstPassData lvl)

/-- The canvas pipeline body (PDFService.ts:110-199): render every page at the
level's scale, re-encode at the level's quality, build a document of full-bleed
image pages, serialize. -/
def renderAll (c : Codec) (sc q : ℚ) : List Page → Option (List Page)
  | [] => some []
  | p :: rest => do
      let bytes ← c.renderPage p sc q
      let rest' ← renderAll c sc q rest
      pure (Page.mk (p.width * sc) (p.height * sc) (PageContent.image bytes) :: rest')

def canvasCore (c : Codec) (file : PDFFile) (lvl : CompressionLevel) : Option (List Nat) := do
  let pdf ← c.loadBytes file.data
  let imgs ← renderAll c (canvasScale lvl) (canvasQuality lvl) pdf.pages
  pure (c.save (Document.mk imgs defaultMeta false))

/-- `canvasBasedCompression` (PDFService.ts:110-205): on any failure fall back
to `advancedCompression`. -/
def canvasBasedCompression (c : Codec) (file : PDFFile) (lvl : CompressionLevel) :
    Option (List Nat) :=
  match canvasCore c file lvl with
  | some r => some r
  | none => advancedCompression c file lvl

/-- `compressPDF` (PDFService.ts:73-107): route `high`/`extreme` to the canvas
strategy and `low`/`medium` to the structural strategy. -/
def compressPDF (c : Codec) (file : PDFFile) (lvl : CompressionLevel) : Option (List Nat) :=
  if lvl = CompressionLevel.high ∨ lvl = CompressionLevel.extreme then
    canvasBasedCompression c file lvl
  else advancedCompression c file lvl

/-! The caller's result policy (`handleCompressPDF`, src/unnamed/part_001:340-395). -/

/-- What the compress tool does with a completed result: whether the bytes were
auto-downloaded, whether the operation was flagged successful, and whether the
negligible-compression advisory was shown. -/
structure CompressOutcome where
  downloaded : Bool
  success : Bool
  advisory : Bool
deriving DecidableEq

/-- `((originalSize - compressedSize) / originalSize) * 100` (part_001:368). -/
def reductionPercent (originalSize newSize : Nat) : ℚ :=
  ((originalSize : ℚ) - (newSize : ℚ)) / (originalSize : ℚ) * 100

/-- part_001:380-388: download automatically only when reduction exceeds 5
percent; otherwise warn but still mark the operation successful. -/
def compressResultPolicy (originalSize newSize : Nat) : CompressOutcome :=
  if 5 < reductionPercent originalSize newSize then CompressOutcome.mk true true false
  else CompressOutcome.mk false true true

/-! Validation (`useFileValidation.ts`). -/

inductive VError
  | sizeExceedsMax
  | invalidFormat
  | encrypted
  | tooFewPages
  | tooManyPages
  | corruptZeroPages
deriving DecidableEq

structure ValidationOptions where
  maxSize : Nat
  minPages : Nat
  maxPages : Nat
  allowEncrypted : Bool
deriving DecidableEq

structure ValidationResult where
  isValid : Bool
  errors : List VError
  warnings : List VError
deriving DecidableEq

/-- `validatePDF` (useFileValidation.ts:34-85), with error messages abstracted
to tags: size check, parse check (short-circuiting the rest), encryption check,
page-count bounds, and the zero-page corrupt check; `isValid` is false exactly
when some error was pushed. -/
def validatePDF (c : Codec) (opts : ValidationOptions) (file : PDFFile) :
    ValidationResult :=
  let sizeErrs := if opts.maxSize < file.size then [VError.sizeExceedsMax] else []
  match c.loadBytes file.data with
  | none => ValidationResult.mk false (sizeErrs ++ [VError.invalidFormat]) []
  | some doc =>
      let encErrs :=
        if doc.isEncrypted && !opts.allowEncrypted then [VError.encrypted] else []
      let minErrs := if doc.pageCount < opts.minPages then [VError.tooFewPages] else []
      let maxErrs := if opts.maxPages < doc.pageCount then [VError.tooManyPages] else []
      let corruptErrs := if doc.pageCount = 0 then [VError.corruptZeroPages] else []
      let errors := sizeErrs ++ encErrs ++ minErrs ++ maxErrs ++ corruptErrs
      ValidationResult.mk errors.isEmpty errors []

/-! Concrete sample documents, files and codecs used by witnesses and
counterexamples. -/

def samplePage (k : Nat) : Page := Page.mk 100 100 (PageContent.original k)

def doc1 : Document := Document.mk [samplePage 0] defaultMeta false

def doc2 : Document := Document.mk [samplePage 0, samplePage 1] defaultMeta false

def doc3 : Document := Document.mk [samplePage 0, samplePage 1, samplePage 2] defaultMeta false

def doc4 : Document :=
  Document.mk [samplePage 0, samplePage 1, samplePage 2, samplePage 3] defaultMeta false

def docZero : Document := Document.mk [] defaultMeta false

/-- A codec that parses anything as `doc1` and serializes to two bytes. -/
def codecW : Codec := Codec.mk (fun _ => [0, 0]) (fun _ => some doc1) (fun _ _ _ => none)

/-- A codec whose reload of the one-byte first-pass output fails: parses only
the empty byte string (as `doc1`) and serializes everything to one byte. -/
def codecFail : Codec :=
  Codec.mk (fun _ => [0]) (fun b => if b.isEmpty then some doc1 else none) (fun _ _ _ => none)

/-- A codec that parses anything as the zero-page document. -/
def codecZero : Codec := Codec.mk (fun _ => [0]) (fun _ => some docZero) (fun _ _ _ => none)

def fileW : PDFFile := PDFFile.mk "w.pdf" 10 []

def fileSmall : PDFFile := PDFFile.mk "s.pdf" 1 []

def optsW : ValidationOptions := ValidationOptions.mk 10 1 1000 false

/-! Basic lemmas about the codec model. -/

theorem pageAt_isSome {d : Document} {i : Int} :
    (pageAt d i).isSome = true ↔ 0 ≤ i ∧ i < (d.pageCount : Int) := by
  unfold pageAt Document.pageCount
  split
  · next h =>
    rw [Option.isSome_iff_exists]
    constructor
    · intro ⟨p, hp⟩
      have := (List.getElem?_eq_some.mp hp).1
      exact ⟨h, by omega⟩
    · intro ⟨_, hlt⟩
      have hn : i.toNat < d.pages.length := by omega
      exact ⟨d.pages[i.toNat], List.getElem?_eq_getElem hn⟩
  · next h =>
    simp only [Option.isSome_none, Bool.false_eq_true, false_iff]
    intro ⟨h0, _⟩
    exact h h0

theorem pageAt_ofNat {d : Document} {k : Nat} (h : k < d.pages.length) :
    pageAt d ((k : Nat) : Int) = some (d.pages[k]) := by
  unfold pageAt
  simp [Int.toNat_ofNat, List.getElem?_eq_getElem h]

theorem copyPages_isSome {d : Document} {l : List Int} :
    (copyPages d l).isSome = true ↔ ∀ i ∈ l, 0 ≤ i ∧ i < (d.pageCount : Int) := by
  induction l with
  | nil => simp [copyPages]
  | cons i rest ih =>
    simp only [copyPages, List.mem_cons, bind, Option.bind, Option.pure_def]
    cases hp : pageAt d i with
    | none =>
      simp only [Option.isSome_none, Bool.false_eq_true, false_iff]
      intro hall
      have := pageAt_isSome (d := d) (i := i)
      rw [hp] at this
      simp only [Option.isSome_none, Bool.false_eq_true, false_iff] at this
      exact this (hall i (Or.inl rfl))
    | some p =>
      cases hr : copyPages d rest with
      | none =>
        simp only [Option.isSome_none, Bool.false_eq_true, false_iff]
        rw [hr] at ih
        simp only [Option.isSome_none, Bool.false_eq_true, false_iff] at ih
        intro hall
        exact ih fun j hj => hall j (Or.inr hj)
      | some ps =>
        simp only [Option.isSome_some, true_iff]
        intro j hj
        rcases hj with hj | hj
        · subst hj
          have := pageAt_isSome (d := d) (i := j)
          rw [hp] at this
          simpa using this
        · rw [hr] at ih
          simp only [Option.isSome_some, true_iff] at ih
          exact ih j hj

theorem copyPages_length {d : Document} {l : List Int} {ps : List Page}
    (h : copyPages d l = some ps) : ps.length = l.length := by
  induction l generalizing ps with
  | nil =>
    simp only [copyPages, Option.some.injEq] at h
    subst h
    rfl
  | cons i rest ih =>
    simp only [copyPages, bind, Option.bind, Option.pure_def] at h
    cases hp : pageAt d i with
    | none => rw [hp] at h; exact absurd h (by simp)
    | some p =>
      rw [hp] at h
      cases hr : copyPages d rest with
      | none => rw [hr] at h; exact absurd h (by simp)
      | some qs =>
        rw [hr] at h
        simp only [Option.some.injEq] at h
        subst h
        simp [ih hr]

theorem copyPages_range' (d : Document) :
    ∀ (len lo : Nat), lo + len ≤ d.pages.length →
      copyPages d ((List.range' lo len).map (Nat.cast : Nat → Int)) =
        some ((d.pages.drop lo).take len) := by
  intro len
  induction len with
  | zero => intro lo _; simp [copyPages]
  | succ n ih =>
    intro lo hle
    have hlo : lo < d.pages.length := by omega
    rw [List.range'_succ, List.map_cons]
    show (do
      let p ← pageAt d ((lo : Nat) : Int)
      let ps ← copyPages d ((List.range' (lo + 1) n).map (Nat.cast : Nat → Int))
      pure (p :: ps)) = _
    rw [pageAt_ofNat hlo, ih (lo + 1) (by omega)]
    have hdrop : d.pages.drop lo = d.pages[lo] :: d.pages.drop (lo + 1) :=
      List.drop_eq_getElem_cons hlo
    rw [hdrop]
    rfl

theorem copyPages_getPageIndices (d : Document) :
    copyPages d (getPageIndices d) = some d.pages := by
  unfold getPageIndices Document.pageCount
  rw [List.range_eq_range']
  rw [copyPages_range' d d.pages.length 0 (by omega)]
  simp

/-! Lemmas about merging. -/

theorem mergePages_single (d : Document) : mergePages [d] = some d.pages := by
  show (do
    let ps ← copyPages d (getPageIndices d)
    let qs ← mergePages []
    pure (ps ++ qs)) = some d.pages
  rw [copyPages_getPageIndices]
  simp [mergePages]

/-- C8 counterexample: merging an empty list of documents does not fail — it
succeeds and produces an empty zero-page document, so the code imposes no
"at least one input document" requirement (that guard lives only in the UI,
which requires two). -/
theorem mergePDFs_empty_succeeds :
    mergePDFs [] = some (Document.mk [] defaultMeta false) := rfl

/-- C8 (amended): `mergePDFs` imposes no minimum input count (an empty list
yields an empty document, see the counterexample); merging a single document is
an identity on pages: the output has exactly the input's pages in order, hence
the same page count and page order. -/
theorem mergePDFs_single_identity (d : Document) :
    mergePDFs [d] = some (Document.mk d.pages defaultMeta false) := by
  unfold mergePDFs
  rw [mergePages_single]
  rfl

theorem mem_getPageIndices {d : Document} {i : Int} :
    i ∈ getPageIndices d ↔ 0 ≤ i ∧ i < (d.pageCount : Int) := by
  unfold getPageIndices
  simp only [List.mem_map, List.mem_range]
  constructor
  · intro ⟨k, hk, hki⟩
    subst hki
    omega
  · intro ⟨h0, hlt⟩
    exact ⟨i.toNat, by omega, by omega⟩

/-- C2 counterexample: `[0, 0]` is not a permutation of the page indices of the
two-page document, yet `organizePDF` succeeds on it instead of failing with a
`ValidationError`; the source performs no permutation validation at all. -/
theorem organizePDF_no_failure_on_duplicate :
    (organizePDF doc2 [0, 0]).isSome = true ∧
      ¬ List.Perm ([0, 0] : List Int) (getPageIndices doc2) := by
  constructor
  · rfl
  · decide

/-- C2 (amended): `organizePDF` performs no permutation validation: it succeeds
iff every entry of `newOrder` lies in `[0, pageCount)` — length mismatches and
duplicates are accepted — and on success the result has `newOrder.length`
pages; consequently, for every valid permutation of the page indices the
result's page count equals the source's page count. -/
theorem organizePDF_pageCount_spec (d : Document) (ord : List Int) :
    ((organizePDF d ord).map Document.pageCount =
      if ∀ i ∈ ord, 0 ≤ i ∧ i < (d.pageCount : Int) then some ord.length else none)
    ∧ (List.Perm ord (getPageIndices d) →
        (organizePDF d ord).map Document.pageCount = some d.pageCount) := by
  have main : (organizePDF d ord).map Document.pageCount =
      if ∀ i ∈ ord, 0 ≤ i ∧ i < (d.pageCount : Int) then some ord.length else none := by
    by_cases hall : ∀ i ∈ ord, 0 ≤ i ∧ i < (d.pageCount : Int)
    · rw [if_pos hall]
      have hs : (copyPages d ord).isSome = true := copyPages_isSome.mpr hall
      obtain ⟨ps, hps⟩ := Option.isSome_iff_exists.mp hs
      unfold organizePDF
      rw [hps]
      simp [Document.pageCount, copyPages_length hps]
    · rw [if_neg hall]
      have hs : copyPages d ord = none := by
        cases hcp : copyPages d ord with
        | none => rfl
        | some ps =>
          exact absurd (copyPages_isSome.mp (by rw [hcp]; rfl)) hall
      unfold organizePDF
      rw [hs]
      rfl
  refine ⟨main, fun hperm => ?_⟩
  have hall : ∀ i ∈ ord, 0 ≤ i ∧ i < (d.pageCount : Int) := fun i hi =>
    mem_getPageIndices.mp (hperm.mem_iff.mp hi)
  rw [main, if_pos hall]
  have hlen : ord.length = d.pageCount := by
    have := hperm.length_eq
    simpa [getPageIndices] using this
  rw [hlen]

/-- C2 witness: reversing the two pages of `doc2` is a valid permutation and
the result keeps the page count. -/
theorem organizePDF_pageCount_spec_witness :
    (organizePDF doc2 [1, 0]).map Document.pageCount = some doc2.pageCount :=
  (organizePDF_pageCount_spec doc2 [1, 0]).2 (by decide)

/-- C3 counterexample: on the `extreme` level the direct-copy path
(`applyCompression`) does scale page dimensions — the single 100-point-wide
page comes out 90 points wide — contradicting the claim that widths and
heights are unchanged on every level. -/
theorem applyCompression_scales_extreme :
    (applyCompressionDoc doc1 CompressionLevel.extreme).map
        (fun r => r.pages.map Page.width) = some [90]
      ∧ doc1.pages.map Page.width = [100] := by
  constructor
  · unfold applyCompressionDoc
    rw [copyPages_getPageIndices]
    simp [doc1, samplePage, scalePage, applyCompressionScale]
    norm_num
  · simp [doc1, samplePage]

/-- C3 (amended): the direct-copy safety net always succeeds when the source
loaded: it copies every page, leaves widths and heights unchanged for `low` and
`medium` (the levels routed to the structural strategy whose failure reaches
this path) while scaling them by 0.95 / 0.9 for `high` / `extreme`, and strips
metadata only for `high` and `extreme`. -/
theorem applyCompression_direct_copy_spec (c : Codec) (pdf : Document)
    (lvl : CompressionLevel) :
    (applyCompression c pdf lvl).isSome = true
    ∧ applyCompressionDoc pdf lvl = some (Document.mk
        (pdf.pages.map fun p =>
          if lvl = CompressionLevel.high ∨ lvl = CompressionLevel.extreme then
            scalePage (applyCompressionScale lvl) p
          else p)
        (if lvl = CompressionLevel.high ∨ lvl = CompressionLevel.extreme then strippedMeta
         else defaultMeta)
        false)
    ∧ ((lvl = CompressionLevel.low ∨ lvl = CompressionLevel.medium) →
        (applyCompressionDoc pdf lvl).map Document.pages = some pdf.pages) := by
  have hdoc : applyCompressionDoc pdf lvl = some (Document.mk
      (pdf.pages.map fun p =>
        if lvl = CompressionLevel.high ∨ lvl = CompressionLevel.extreme then
          scalePage (applyCompressionScale lvl) p
        else p)
      (if lvl = CompressionLevel.high ∨ lvl = CompressionLevel.extreme then strippedMeta
       else defaultMeta)
      false) := by
    unfold applyCompressionDoc
    rw [copyPages_getPageIndices]
    rfl
  refine ⟨?_, hdoc, ?_⟩
  · unfold applyCompression
    rw [hdoc]
    rfl
  · intro hlm
    have hne : ¬ (lvl = CompressionLevel.high ∨ lvl = CompressionLevel.extreme) := by
      rcases hlm with h | h <;> subst h <;> simp
    rw [hdoc]
    simp [hne]

/-- C3 witness: at `low` the direct-copy path returns the pages untouched. -/
theorem applyCompression_direct_copy_spec_witness :
    (applyCompressionDoc doc1 CompressionLevel.low).map Document.pages = some doc1.pages :=
  (applyCompression_direct_copy_spec codecW doc1 CompressionLevel.low).2.2 (Or.inl rfl)

/-- C4: for a completed compression the caller (part_001 `handleCompressPDF`)
always flags the operation successful; it auto-downloads exactly when the
reduction percentage exceeds 5, and surfaces the negligible-compression
advisory exactly when it does not — the result is available in both cases. -/
theorem compressResultPolicy_spec (orig new : Nat) (h : 0 < orig) :
    (compressResultPolicy orig new).success = true
    ∧ ((compressResultPolicy orig new).downloaded = true ↔
        5 * (orig : ℚ) < ((orig : ℚ) - (new : ℚ)) * 100)
    ∧ ((compressResultPolicy orig new).advisory = true ↔
        ((orig : ℚ) - (new : ℚ)) * 100 ≤ 5 * (orig : ℚ)) := by
  have ho : (0 : ℚ) < (orig : ℚ) := by exact_mod_cast h
  have key : 5 < reductionPercent orig new ↔
      5 * (orig : ℚ) < ((orig : ℚ) - (new : ℚ)) * 100 := by
    unfold reductionPercent
    rw [div_mul_eq_mul_div, lt_div_iff₀ ho]
  unfold compressResultPolicy
  split
  · next hc =>
    exact ⟨rfl, iff_of_true rfl (key.mp hc),
      iff_of_false (by simp) (not_le.mpr (key.mp hc))⟩
  · next hc =>
    exact ⟨rfl, iff_of_false (by simp) (fun hlt => hc (key.mpr hlt)),
      iff_of_true rfl (not_lt.mp (fun hlt => hc (key.mpr hlt)))⟩

/-- C4 witness: shrinking 200 bytes to 100 is a 50 percent reduction, so the
result is auto-downloaded and the operation is successful. -/
theorem compressResultPolicy_spec_witness :
    (compressResultPolicy 200 100).success = true
      ∧ (compressResultPolicy 200 100).downloaded = true := by
  have h := compressResultPolicy_spec 200 100 (by decide)
  exact ⟨h.1, h.2.1.mpr (by norm_num)⟩

/-! Validation lemmas. -/

theorem validatePDF_none (c : Codec) (opts : ValidationOptions) (f : PDFFile)
    (h : c.loadBytes f.data = none) :
    validatePDF c opts f = ValidationResult.mk false
      ((if opts.maxSize < f.size then [VError.sizeExceedsMax] else [])
        ++ [VError.invalidFormat]) [] := by
  unfold validatePDF
  rw [h]

theorem validatePDF_some (c : Codec) (opts : ValidationOptions) (f : PDFFile)
    (doc : Document) (h : c.loadBytes f.data = some doc) :
    validatePDF c opts f = ValidationResult.mk
      ((if opts.maxSize < f.size then [VError.sizeExceedsMax] else [])
        ++ (if doc.isEncrypted && !opts.allowEncrypted then [VError.encrypted] else [])
        ++ (if doc.pageCount < opts.minPages then [VError.tooFewPages] else [])
        ++ (if opts.maxPages < doc.pageCount then [VError.tooManyPages] else [])
        ++ (if doc.pageCount = 0 then [VError.corruptZeroPages] else [])).isEmpty
      ((if opts.maxSize < f.size then [VError.sizeExceedsMax] else [])
        ++ (if doc.isEncrypted && !opts.allowEncrypted then [VError.encrypted] else [])
        ++ (if doc.pageCount < opts.minPages then [VError.tooFewPages] else [])
        ++ (if opts.maxPages < doc.pageCount then [VError.tooManyPages] else [])
        ++ (if doc.pageCount = 0 then [VError.corruptZeroPages] else []))
      [] := by
  unfold validatePDF
  rw [h]

/-- C6: `validatePDF` passes the size check at exactly `maxSize` (no size error
is recorded when `size ≤ maxSize`, and the file is fully valid at the boundary
when every other check passes), rejects one byte over `maxSize` with a size
error, and marks any parsed document with zero pages invalid with the
corrupt-file error regardless of the other constraints. -/
theorem validatePDF_boundaries (c : Codec) (opts : ValidationOptions) (f : PDFFile) :
    (f.size ≤ opts.maxSize → VError.sizeExceedsMax ∉ (validatePDF c opts f).errors)
    ∧ (f.size = opts.maxSize + 1 →
        (validatePDF c opts f).isValid = false
          ∧ VError.sizeExceedsMax ∈ (validatePDF c opts f).errors)
    ∧ (∀ doc, c.loadBytes f.data = some doc → doc.pageCount = 0 →
        (validatePDF c opts f).isValid = false
          ∧ VError.corruptZeroPages ∈ (validatePDF c opts f).errors)
    ∧ (f.size = opts.maxSize → ∀ doc, c.loadBytes f.data = some doc →
        (doc.isEncrypted && !opts.allowEncrypted) = false →
        opts.minPages ≤ doc.pageCount → doc.pageCount ≤ opts.maxPages →
        doc.pageCount ≠ 0 → (validatePDF c opts f).isValid = true) := by
  refine ⟨?_, ?_, ?_, ?_⟩
  · intro hle
    have h1 : ¬ opts.maxSize < f.size := by omega
    cases hload : c.loadBytes f.data with
    | none =>
      rw [validatePDF_none c opts f hload]
      simp [h1]
    | some doc =>
      rw [validatePDF_some c opts f doc hload]
      simp only [h1, if_false]
      split_ifs <;> simp
  · intro hsz
    have h1 : opts.maxSize < f.size := by omega
    cases hload : c.loadBytes f.data with
    | none =>
      rw [validatePDF_none c opts f hload]
      simp [h1]
    | some doc =>
      rw [validatePDF_some c opts f doc hload]
      simp [h1]
  · intro doc hdoc h0
    rw [validatePDF_some c opts f doc hdoc]
    simp [h0]
  · intro hsz doc hdoc henc hmin hmax h0
    have h1 : ¬ opts.maxSize < f.size := by omega
    have h2 : ¬ doc.pageCount < opts.minPages := by omega
    have h3 : ¬ opts.maxPages < doc.pageCount := by omega
    rw [validatePDF_some c opts f doc hdoc]
    simp [h1, h2, h3, h0, henc]

/-- C6 witness: a parsed zero-page document is invalid and carries the
corrupt-file error. -/
theorem validatePDF_boundaries_witness :
    (validatePDF codecZero optsW fileW).isValid = false
      ∧ VError.corruptZeroPages ∈ (validatePDF codecZero optsW fileW).errors :=
  (validatePDF_boundaries codecZero optsW fileW).2.2.1 docZero rfl rfl

/-! Counting lemmas for remove/extract complementarity. -/

theorem mem_rangeCast {pc : Nat} {i : Int} :
    i ∈ (List.range pc).map (Nat.cast : Nat → Int) ↔ 0 ≤ i ∧ i < (pc : Int) := by
  simp only [List.mem_map, List.mem_range]
  constructor
  · intro ⟨k, hk, hki⟩
    subst hki
    omega
  · intro ⟨h0, hlt⟩
    exact ⟨i.toNat, by omega, by omega⟩

theorem nodup_rangeCast (pc : Nat) :
    ((List.range pc).map (Nat.cast : Nat → Int)).Nodup :=
  (List.nodup_range pc).map Nat.cast_injective

theorem length_filter_mem {pc : Nat} {S : List Int} (hnd : S.Nodup)
    (hsub : ∀ i ∈ S, 0 ≤ i ∧ i < (pc : Int)) :
    (((List.range pc).map (Nat.cast : Nat → Int)).filter
      (fun i => decide (i ∈ S))).length = S.length := by
  have hA : (((List.range pc).map (Nat.cast : Nat → Int)).filter
      (fun i => decide (i ∈ S))).Nodup := (nodup_rangeCast pc).filter _
  have hperm : List.Perm
      (((List.range pc).map (Nat.cast : Nat → Int)).filter (fun i => decide (i ∈ S))) S := by
    rw [List.perm_ext_iff_of_nodup hA hnd]
    intro a
    simp only [List.mem_filter, decide_eq_true_eq]
    constructor
    · intro ⟨_, ha⟩
      exact ha
    · intro ha
      exact ⟨mem_rangeCast.mpr (hsub a ha), ha⟩
  exact hperm.length_eq

theorem length_keptIndices {pc : Nat} {S : List Int} (hnd : S.Nodup)
    (hsub : ∀ i ∈ S, 0 ≤ i ∧ i < (pc : Int)) :
    (keptIndices pc S).length = pc - S.length := by
  have hsplit : ((List.range pc).map (Nat.cast : Nat → Int)).length =
      (((List.range pc).map (Nat.cast : Nat → Int)).filter
        (fun i => decide (i ∈ S))).length +
      (((List.range pc).map (Nat.cast : Nat → Int)).filter
        (fun i => !(decide (i ∈ S)))).length :=
    List.length_eq_length_filter_add _
  have hmemlen := length_filter_mem hnd hsub
  have hlen : ((List.range pc).map (Nat.cast : Nat → Int)).length = pc := by simp
  have hkept : keptIndices pc S =
      ((List.range pc).map (Nat.cast : Nat → Int)).filter
        (fun i => !(decide (i ∈ S))) := by
    unfold keptIndices
    congr 1
    funext i
    simp
  rw [hkept]
  omega

theorem length_le_of_nodup_bounded {pc : Nat} {S : List Int} (hnd : S.Nodup)
    (hsub : ∀ i ∈ S, 0 ≤ i ∧ i < (pc : Int)) : S.length ≤ pc := by
  have hmemlen := length_filter_mem hnd hsub
  have := List.length_filter_le (fun i => decide (i ∈ S))
    ((List.range pc).map (Nat.cast : Nat → Int))
  rw [hmemlen] at this
  simpa using this

/-- C7: for a duplicate-free index set inside `[0, pageCount)`, the page counts
of `removePages` and of `extractPages` on the ascending sort of the set sum to
the source's page count. -/
theorem remove_extract_complementary (d : Document) (S : List Int)
    (hnd : S.Nodup) (hsub : ∀ i ∈ S, 0 ≤ i ∧ i < (d.pageCount : Int)) :
    (removePages d S).map Document.pageCount = some (d.pageCount - S.length)
    ∧ (extractPages d (List.insertionSort (· ≤ ·) S)).map Document.pageCount = some S.length
    ∧ d.pageCount - S.length + S.length = d.pageCount := by
  refine ⟨?_, ?_, ?_⟩
  · have hin : ∀ i ∈ keptIndices d.pageCount S, 0 ≤ i ∧ i < (d.pageCount : Int) := by
      intro i hi
      unfold keptIndices at hi
      exact mem_rangeCast.mp (List.mem_of_mem_filter hi)
    obtain ⟨ps, hps⟩ := Option.isSome_iff_exists.mp (copyPages_isSome.mpr hin)
    unfold removePages
    rw [hps]
    show some (Document.mk ps defaultMeta false).pageCount = some (d.pageCount - S.length)
    rw [show (Document.mk ps defaultMeta false).pageCount = ps.length from rfl]
    rw [copyPages_length hps, length_keptIndices hnd hsub]
  · have hin : ∀ i ∈ List.insertionSort (· ≤ ·) S, 0 ≤ i ∧ i < (d.pageCount : Int) := by
      intro i hi
      exact hsub i ((List.perm_insertionSort (· ≤ ·) S).mem_iff.mp hi)
    obtain ⟨ps, hps⟩ := Option.isSome_iff_exists.mp (copyPages_isSome.mpr hin)
    unfold extractPages
    rw [hps]
    show some (Document.mk ps defaultMeta false).pageCount = some S.length
    rw [show (Document.mk ps defaultMeta false).pageCount = ps.length from rfl]
    rw [copyPages_length hps, (List.perm_insertionSort (· ≤ ·) S).length_eq]
  · have := length_le_of_nodup_bounded hnd hsub
    omega

/-- C7 witness: on the three-page document with `S = [2, 0]`, removal keeps one
page, extraction of the sorted set keeps two, and they sum to three. -/
theorem remove_extract_complementary_witness :
    (removePages doc3 [2, 0]).map Document.pageCount = some 1
      ∧ (extractPages doc3 (List.insertionSort (· ≤ ·) [2, 0])).map Document.pageCount
          = some 2 := by
  have h := remove_extract_complementary doc3 [2, 0] (by decide) (by decide)
  exact ⟨h.1, h.2.1⟩

/-! Compression-pipeline lemmas. -/

theorem structTransform_eq (pdf : Document) (lvl : CompressionLevel) :
    structTransform pdf lvl = some (structDoc pdf lvl) := by
  unfold structTransform structDoc
  rw [copyPages_getPageIndices]
  rfl

theorem advancedCompression_loaded (c : Codec) (f : PDFFile) (lvl : CompressionLevel)
    (pdf : Document) (hload : c.loadBytes f.data = some pdf) :
    advancedCompression c f lvl =
      if ((c.save (structDoc pdf lvl)).length : ℚ) < (f.size : ℚ) * (8/10)
      then some (c.save (structDoc pdf lvl))
      else some (secondPassCompression c (c.save (structDoc pdf lvl)) lvl) := by
  simp only [advancedCompression, hload, Option.some_bind, structTransform_eq pdf lvl]

/-- C5: `high` and `extreme` route to the canvas (raster) strategy while `low`
and `medium` route to the structural strategy; on the structural path the
first-pass bytes are returned iff their length is strictly below 80 percent of
the original size, and otherwise the result is exactly one application of the
more aggressive second pass, with no further size check and no third pass. -/
theorem compressPDF_routing_threshold (c : Codec) (f : PDFFile)
    (lvl : CompressionLevel) (pdf : Document) (hload : c.loadBytes f.data = some pdf) :
    compressPDF c f CompressionLevel.high = canvasBasedCompression c f CompressionLevel.high
    ∧ compressPDF c f CompressionLevel.extreme
        = canvasBasedCompression c f CompressionLevel.extreme
    ∧ compressPDF c f CompressionLevel.low = advancedCompression c f CompressionLevel.low
    ∧ compressPDF c f CompressionLevel.medium
        = advancedCompression c f CompressionLevel.medium
    ∧ advancedCompression c f lvl =
        (if ((c.save (structDoc pdf lvl)).length : ℚ) < (f.size : ℚ) * (8/10)
         then some (c.save (structDoc pdf lvl))
         else some (secondPassCompression c (c.save (structDoc pdf lvl)) lvl)) :=
  ⟨rfl, rfl, rfl, rfl, advancedCompression_loaded c f lvl pdf hload⟩

/-- C5 witness: with a codec that serializes everything to two bytes and a
ten-byte file, the first structural pass is under the 80 percent threshold and
is returned as-is; `high` routes to the canvas strategy. -/
theorem compressPDF_routing_threshold_witness :
    compressPDF codecW fileW CompressionLevel.high
        = canvasBasedCompression codecW fileW CompressionLevel.high
      ∧ advancedCompression codecW fileW CompressionLevel.low = some [0, 0] := by
  have h := compressPDF_routing_threshold codecW fileW CompressionLevel.low doc1 rfl
  refine ⟨h.1, ?_⟩
  rw [h.2.2.2.2]
  norm_num [codecW, fileW, structDoc]

/-- C10: when reloading the first-pass bytes fails, `secondPassCompression`
catches the error and returns its input unchanged, so the structural path
still returns the first-pass bytes as a success — the failure is never
surfaced and the direct-copy safety net is not involved. -/
theorem secondPass_failure_returns_first_pass (c : Codec) (f : PDFFile)
    (lvl : CompressionLevel) (pdf : Document)
    (hload : c.loadBytes f.data = some pdf)
    (hbig : ¬ ((c.save (structDoc pdf lvl)).length : ℚ) < (f.size : ℚ) * (8/10))
    (hfail : c.loadBytes (c.save (structDoc pdf lvl)) = none) :
    advancedCompression c f lvl = some (c.save (structDoc pdf lvl))
    ∧ secondPassCompression c (c.save (structDoc pdf lvl)) lvl
        = c.save (structDoc pdf lvl) := by
  have hsp : secondPassCompression c (c.save (structDoc pdf lvl)) lvl
      = c.save (structDoc pdf lvl) := by
    unfold secondPassCompression
    rw [hfail]
    rfl
  refine ⟨?_, hsp⟩
  rw [advancedCompression_loaded c f lvl pdf hload, if_neg hbig, hsp]

/-- C10 witness: a codec that parses only the empty byte string makes the
second-pass reload fail, and the structural path returns the one-byte
first-pass output unchanged. -/
theorem secondPass_failure_returns_first_pass_witness :
    advancedCompression codecFail fileSmall CompressionLevel.low
        = some (codecFail.save (structDoc doc1 CompressionLevel.low))
      ∧ secondPassCompression codecFail
          (codecFail.save (structDoc doc1 CompressionLevel.low)) CompressionLevel.low
        = codecFail.save (structDoc doc1 CompressionLevel.low) :=
  secondPass_failure_returns_first_pass codecFail fileSmall CompressionLevel.low doc1 rfl
    (by norm_num [codecFail, fileSmall, structDoc]) rfl

/-! Split lemmas. -/

theorem mem_jsDedupAux {a : Int} :
    ∀ (l seen : List Int), a ∈ jsDedupAux seen l ↔ a ∈ l ∧ a ∉ seen := by
  intro l
  induction l with
  | nil => intro seen; simp [jsDedupAux]
  | cons x xs ih =>
    intro seen
    rw [jsDedupAux]
    split
    · next hx =>
      rw [ih seen]
      simp only [List.mem_cons]
      constructor
      · intro ⟨h1, h2⟩
        exact ⟨Or.inr h1, h2⟩
      · intro ⟨h1, h2⟩
        rcases h1 with h1 | h1
        · subst h1
          exact absurd hx h2
        · exact ⟨h1, h2⟩
    · next hx =>
      simp only [List.mem_cons, ih (x :: seen), List.mem_cons]
      constructor
      · rintro (h | ⟨h1, h2⟩)
        · subst h
          exact ⟨Or.inl rfl, hx⟩
        · exact ⟨Or.inr h1, fun hs => h2 (Or.inr hs)⟩
      · rintro ⟨h1 | h1, h2⟩
        · exact Or.inl h1
        · by_cases hax : a = x
          · exact Or.inl hax
          · exact Or.inr ⟨h1, fun hs => by
              rcases hs with hs | hs
              · exact hax hs
              · exact h2 hs⟩

theorem mem_jsDedup {l : List Int} {a : Int} : a ∈ jsDedup l ↔ a ∈ l := by
  unfold jsDedup
  rw [mem_jsDedupAux l []]
  simp

theorem jsDedupAux_nodup : ∀ (l seen : List Int), (jsDedupAux seen l).Nodup := by
  intro l
  induction l with
  | nil => intro seen; exact List.nodup_nil
  | cons x xs ih =>
    intro seen
    rw [jsDedupAux]
    split
    · exact ih seen
    · refine List.nodup_cons.mpr ⟨?_, ih (x :: seen)⟩
      rw [mem_jsDedupAux xs (x :: seen)]
      intro ⟨_, h2⟩
      exact h2 (List.mem_cons_self x seen)

theorem jsDedup_nodup (l : List Int) : (jsDedup l).Nodup := jsDedupAux_nodup l []

theorem jsDedupAux_eq_self :
    ∀ (l seen : List Int), l.Nodup → (∀ a ∈ l, a ∉ seen) → jsDedupAux seen l = l := by
  intro l
  induction l with
  | nil => intro seen _ _; rfl
  | cons x xs ih =>
    intro seen hnd hdisj
    rw [List.nodup_cons] at hnd
    rw [jsDedupAux]
    rw [if_neg (hdisj x (List.mem_cons_self x xs))]
    congr 1
    apply ih (x :: seen) hnd.2
    intro a ha
    intro hmem
    rcases List.mem_cons.mp hmem with h | h
    · subst h
      exact hnd.1 ha
    · exact hdisj a (List.mem_cons_of_mem x ha) h

theorem jsDedup_eq_self {l : List Int} (h : l.Nodup) : jsDedup l = l :=
  jsDedupAux_eq_self l [] h (fun a _ => List.not_mem_nil a)

theorem mem_sanitizeSplits {pc : Nat} {s : List Int} {p : Int} :
    p ∈ sanitizeSplits pc s ↔ p ∈ s ∧ 1 ≤ p ∧ p < (pc : Int) := by
  unfold sanitizeSplits
  rw [(List.perm_insertionSort _ _).mem_iff]
  simp [List.mem_filter, mem_jsDedup, and_assoc]

theorem sanitizeSplits_nodup (pc : Nat) (s : List Int) : (sanitizeSplits pc s).Nodup :=
  ((List.perm_insertionSort _ _).nodup_iff).mpr ((jsDedup_nodup s).filter _)

theorem sanitizeSplits_sorted (pc : Nat) (s : List Int) :
    List.Sorted (· ≤ ·) (sanitizeSplits pc s) :=
  List.sorted_insertionSort _ _

theorem sanitize_fixed {pc : Nat} {B : List Int} (hnd : B.Nodup)
    (hsort : List.Sorted (· ≤ ·) B) (hall : ∀ p ∈ B, 1 ≤ p ∧ p < (pc : Int)) :
    sanitizeSplits pc B = B := by
  unfold sanitizeSplits
  rw [jsDedup_eq_self hnd]
  have hf : B.filter (fun p => decide (1 ≤ p) && decide (p < (pc : Int))) = B := by
    apply List.filter_eq_self.mpr
    intro p hp
    have := hall p hp
    simp only [Bool.and_eq_true, decide_eq_true_eq]
    exact this
  rw [hf]
  exact hsort.insertionSort_eq

theorem sanitizeSplits_idem (pc : Nat) (s : List Int) :
    sanitizeSplits pc (sanitizeSplits pc s) = sanitizeSplits pc s :=
  sanitize_fixed (sanitizeSplits_nodup pc s) (sanitizeSplits_sorted pc s)
    (fun _ hp => (mem_sanitizeSplits.mp hp).2)

theorem buildRanges_bounds {pc : Int} :
    ∀ (L : List Int) (start : Int), 0 ≤ start → (∀ p ∈ L, 1 ≤ p ∧ p < pc) →
      ∀ se ∈ buildRanges pc L start, 0 ≤ se.1 ∧ se.2 < pc := by
  intro L
  induction L with
  | nil =>
    intro start h0 _ se hse
    unfold buildRanges at hse
    split at hse
    · next hlt =>
      simp only [List.mem_singleton] at hse
      subst hse
      exact ⟨h0, by omega⟩
    · simp at hse
  | cons p rest ih =>
    intro start h0 hall se hse
    rw [show buildRanges pc (p :: rest) start = (start, p) :: buildRanges pc rest p
      from rfl] at hse
    rcases List.mem_cons.mp hse with h | h
    · subst h
      exact ⟨h0, (hall p (List.mem_cons_self p rest)).2⟩
    · have hp1 := (hall p (List.mem_cons_self p rest)).1
      exact ih p (by omega) (fun q hq => hall q (List.mem_cons_of_mem p hq)) se h

theorem pageRange_bounds {pc s e : Int} (hs : 0 ≤ s) (he : e < pc) :
    ∀ i ∈ pageRange s e, 0 ≤ i ∧ i < pc := by
  intro i hi
  unfold pageRange at hi
  simp only [List.mem_map, List.mem_range] at hi
  obtain ⟨k, hk, hki⟩ := hi
  subst hki
  have := Int.lt_toNat.mp hk
  constructor <;> omega

theorem splitParts_isSome {d : Document} :
    ∀ {rs : List (Int × Int)},
      (∀ se ∈ rs, ∀ i ∈ pageRange se.1 se.2, 0 ≤ i ∧ i < (d.pageCount : Int)) →
      (splitParts d rs).isSome = true := by
  intro rs
  induction rs with
  | nil => intro _; rfl
  | cons se rest ih =>
    intro hall
    obtain ⟨s, e⟩ := se
    obtain ⟨ps, hps⟩ := Option.isSome_iff_exists.mp
      (copyPages_isSome.mpr (hall (s, e) (List.mem_cons_self _ _)))
    obtain ⟨ds, hds⟩ := Option.isSome_iff_exists.mp
      (ih fun se2 hse2 => hall se2 (List.mem_cons_of_mem _ hse2))
    simp only [splitParts, hps, hds, Option.some_bind]
    rfl

/-- C1: evaluation of `splitPDF` at its failing inputs.  Splitting the 4-page
document after page 2 yields two parts with page counts `[3, 2]` — the index
ranges are `[0,2]` and `[2,3]`, so page index 2 is copied into both parts and
the counts sum to 5, not 4 — and splitting a 1-page document with an empty
split list yields zero output documents instead of one. -/
theorem splitPDF_boundary_overlap_eval :
    (splitPDF doc4 [2]).map (fun ds => ds.map Document.pageCount) = some [3, 2]
    ∧ 3 + 2 ≠ doc4.pageCount
    ∧ splitPDF doc1 [] = some [] := by
  refine ⟨?_, by decide, ?_⟩
  · rfl
  · rfl

/-- C9: `splitPDF` never fails on bad split points: it is always `isSome`, its
output equals the output on the sanitized list, and the sanitized list is
exactly the duplicate-free ascending sort of the given entries inside
`[1, pageCount-1]`. -/
theorem splitPDF_sanitizes (d : Document) (splits : List Int) :
    (splitPDF d splits).isSome = true
    ∧ splitPDF d splits = splitPDF d (sanitizeSplits d.pageCount splits)
    ∧ (∀ p, p ∈ sanitizeSplits d.pageCount splits ↔
        p ∈ splits ∧ 1 ≤ p ∧ p < (d.pageCount : Int))
    ∧ (sanitizeSplits d.pageCount splits).Nodup
    ∧ List.Sorted (· ≤ ·) (sanitizeSplits d.pageCount splits) := by
  refine ⟨?_, ?_, fun p => mem_sanitizeSplits, sanitizeSplits_nodup _ _,
    sanitizeSplits_sorted _ _⟩
  · unfold splitPDF
    apply splitParts_isSome
    intro se hse i hi
    have hb := buildRanges_bounds (sanitizeSplits d.pageCount splits) 0 le_rfl
      (fun p hp => (mem_sanitizeSplits.mp hp).2) se hse
    exact pageRange_bounds hb.1 hb.2 i hi
  · unfold splitPDF
    rw [sanitizeSplits_idem]

/-- C9 witness: a list with a duplicate, a negative entry and an out-of-range
entry still splits the 4-page document without failing. -/
theorem splitPDF_sanitizes_witness :
    (splitPDF doc4 [3, -1, 3, 2, 9]).isSome = true :=
  (splitPDF_sanitizes doc4 [3, -1, 3, 2, 9]).1

end PDFEditor
